import Mathlib

/-!
Verification of the content-publishing backend (posts, likes, comments,
listing/ranking pipeline) against its specification.

The TypeScript services are shallowly embedded: the relational store is a
record of lists, Prisma queries become list filters / finds, raw-SQL
ordering becomes an executable merge sort with the same ordering key, and
thrown HTTP exceptions become an error sum type.  Timestamps are naturals,
ids are strings (posts/users) or naturals (likes/comments).
-/

namespace Pentateuch

/-! ## Slug generation (post.service.ts, generateSlug)

`generateSlug` lowercases, trims, removes characters matching the regex
class complement of word characters, whitespace and hyphen, replaces every
maximal run of whitespace / underscore / hyphen with a single hyphen, and
finally removes leading and trailing hyphens.  Characters are processed as
lists; `Char.toLower` matches JS `toLowerCase` on the ASCII range (all
characters outside ASCII word characters are removed by the strip step in
both). -/

/-- Regex word character, the JS `\w` class: ASCII letter, digit, underscore. -/
def isWordChar (c : Char) : Bool :=
  c.isAlpha || c.isDigit || c == '_'

/-- Characters collapsed by the source regex `[\s_-]+`. -/
def isCollapseChar (c : Char) : Bool :=
  c.isWhitespace || c == '_' || c == '-'

/-- JS `trim`: drop whitespace from both ends. -/
def trimChars (l : List Char) : List Char :=
  ((l.dropWhile Char.isWhitespace).reverse.dropWhile Char.isWhitespace).reverse

/-- The source `replace` with regex class complement of `\w`, `\s`, `-`:
keep word characters, whitespace and hyphens. -/
def stripSpecial (l : List Char) : List Char :=
  l.filter (fun c => isWordChar c || c.isWhitespace || c == '-')

/-- The source `replace` of `[\s_-]+` by a single hyphen: the flag records
whether we are inside a run already replaced by a hyphen. -/
def collapseRuns : Bool → List Char → List Char
  | _, [] => []
  | inRun, c :: rest =>
    if isCollapseChar c then
      if inRun then collapseRuns true rest
      else '-' :: collapseRuns true rest
    else c :: collapseRuns false rest

/-- The source `replace` of leading and trailing hyphen runs by nothing. -/
def dropEdgeHyphens (l : List Char) : List Char :=
  ((l.dropWhile (fun c => c == '-')).reverse.dropWhile (fun c => c == '-')).reverse

/-- `generateSlug` from post.service.ts: lowercase, trim, strip special
characters, collapse whitespace/underscore/hyphen runs, strip edge hyphens. -/
def generateSlug (title : String) : String :=
  ⟨dropEdgeHyphens (collapseRuns false (stripSpecial (trimChars (title.data.map Char.toLower))))⟩

/-! The specification's description of the collapse step differs from the
source: it collapses only whitespace and underscore runs, leaving hyphen
runs intact.  The following definitions follow the spec's words, for
comparison with `generateSlug` above. -/

/-- Characters collapsed according to the spec sentence: whitespace and
underscore only. -/
def isSpecCollapseChar (c : Char) : Bool :=
  c.isWhitespace || c == '_'

/-- Collapse per the spec sentence: whitespace/underscore runs become a
single hyphen; hyphens themselves are untouched. -/
def specCollapseRuns : Bool → List Char → List Char
  | _, [] => []
  | inRun, c :: rest =>
    if isSpecCollapseChar c then
      if inRun then specCollapseRuns true rest
      else '-' :: specCollapseRuns true rest
    else c :: specCollapseRuns false rest

/-- The slug function as the spec describes it (C6's wording): lowercase,
trim, strip outside lowercase letters / digits / whitespace / underscore /
hyphen, collapse whitespace/underscore runs into single hyphens, strip
leading and trailing hyphens. -/
def specDescribedSlug (title : String) : String :=
  ⟨dropEdgeHyphens (specCollapseRuns false (stripSpecial (trimChars (title.data.map Char.toLower))))⟩

/-! ### Facts about the slug pipeline -/

theorem char_isUpper_iff (c : Char) : c.isUpper = true ↔ 65 ≤ c.toNat ∧ c.toNat ≤ 90 := by
  simp only [Char.isUpper, Bool.and_eq_true, decide_eq_true_eq, ge_iff_le]
  constructor
  · rintro ⟨h1, h2⟩
    rw [UInt32.le_def, BitVec.le_def] at h1 h2
    exact ⟨h1, h2⟩
  · rintro ⟨h1, h2⟩
    rw [UInt32.le_def, BitVec.le_def]
    exact ⟨h1, h2⟩

/-- ASCII lowercasing never yields an upper-case character. -/
theorem toLower_isUpper_eq_false (c : Char) : (Char.toLower c).isUpper = false := by
  have h : Char.toLower c =
      if c.toNat ≥ 65 ∧ c.toNat ≤ 90 then Char.ofNat (c.toNat + 32) else c := rfl
  rw [h]
  split
  · rename_i hc
    have hval : (Char.ofNat (c.toNat + 32)).toNat = c.toNat + 32 := by
      rw [Char.ofNat, dif_pos (by left; omega)]
      simp [Char.ofNatAux, Char.toNat, UInt32.toNat]
    rw [Bool.eq_false_iff]
    intro hup
    rw [char_isUpper_iff] at hup
    omega
  · rename_i hc
    rw [Bool.eq_false_iff]
    intro hup
    rw [char_isUpper_iff] at hup
    exact hc ⟨hup.1, hup.2⟩

/-- Every character emitted by the collapse pass is either the hyphen
marker or a non-collapsible character of the input. -/
theorem mem_collapseRuns {c : Char} :
    ∀ (b : Bool) (l : List Char), c ∈ collapseRuns b l →
      c = '-' ∨ (c ∈ l ∧ isCollapseChar c = false) := by
  intro b l
  induction l generalizing b with
  | nil => intro h; simp [collapseRuns] at h
  | cons x rest ih =>
    intro h
    by_cases hx : isCollapseChar x = true
    · cases b with
      | true =>
        simp only [collapseRuns, hx, if_true] at h
        rcases ih true h with h1 | ⟨h2, h3⟩
        · exact Or.inl h1
        · exact Or.inr ⟨List.mem_cons_of_mem _ h2, h3⟩
      | false =>
        simp [collapseRuns, hx] at h
        rcases h with rfl | h'
        · exact Or.inl rfl
        · rcases ih true h' with h1 | ⟨h2, h3⟩
          · exact Or.inl h1
          · exact Or.inr ⟨List.mem_cons_of_mem _ h2, h3⟩
    · rw [Bool.not_eq_true] at hx
      simp [collapseRuns, hx] at h
      rcases h with rfl | h'
      · exact Or.inr ⟨List.mem_cons_self _ _, hx⟩
      · rcases ih false h' with h1 | ⟨h2, h3⟩
        · exact Or.inl h1
        · exact Or.inr ⟨List.mem_cons_of_mem _ h2, h3⟩

/-- Inside a run, the next emitted character is never the hyphen marker. -/
theorem collapseRuns_true_head? :
    ∀ (l : List Char) {x : Char}, (collapseRuns true l).head? = some x →
      isCollapseChar x = false := by
  intro l
  induction l with
  | nil => intro x h; simp [collapseRuns] at h
  | cons c rest ih =>
    intro x h
    by_cases hc : isCollapseChar c = true
    · simp only [collapseRuns, hc, if_true] at h
      exact ih h
    · rw [Bool.not_eq_true] at hc
      simp [collapseRuns, hc] at h
      exact h ▸ hc

/-- The collapse pass never emits two adjacent hyphens. -/
theorem collapseRuns_chain' :
    ∀ (b : Bool) (l : List Char),
      List.Chain' (fun a b => a ≠ '-' ∨ b ≠ '-') (collapseRuns b l) := by
  intro b l
  induction l generalizing b with
  | nil => simp [collapseRuns]
  | cons c rest ih =>
    by_cases hc : isCollapseChar c = true
    · cases b with
      | true =>
        simp only [collapseRuns, hc, if_true]
        exact ih true
      | false =>
        have hrw : collapseRuns false (c :: rest) = '-' :: collapseRuns true rest := by
          simp [collapseRuns, hc]
        rw [hrw, List.chain'_cons']
        refine ⟨?_, ih true⟩
        intro y hy
        right
        intro hy'
        have := collapseRuns_true_head? rest hy
        rw [hy'] at this
        simp [isCollapseChar] at this
    · rw [Bool.not_eq_true] at hc
      have hrw : collapseRuns b (c :: rest) = c :: collapseRuns false rest := by
        simp [collapseRuns, hc]
      rw [hrw, List.chain'_cons']
      refine ⟨?_, ih false⟩
      intro y hy
      left
      intro hceq
      rw [hceq] at hc
      simp [isCollapseChar] at hc

theorem head?_dropWhile_ne {α : Type _} (p : α → Bool) :
    ∀ (l : List α) {x : α}, (l.dropWhile p).head? = some x → p x = false := by
  intro l
  induction l with
  | nil => intro x h; simp [List.dropWhile] at h
  | cons a rest ih =>
    intro x h
    by_cases ha : p a = true
    · rw [List.dropWhile_cons_of_pos ha] at h
      exact ih h
    · rw [Bool.not_eq_true] at ha
      rw [List.dropWhile_cons_of_neg (by simp [ha])] at h
      simp only [List.head?_cons, Option.some.injEq] at h
      exact h ▸ ha

/-- Dropping a predicate from the reversed end is a prefix of the list. -/
theorem reverse_dropWhile_reverse_prefix {α : Type _} (p : α → Bool) (m : List α) :
    (m.reverse.dropWhile p).reverse <+: m := by
  have h := @List.dropWhile_suffix _ m.reverse p
  rw [← @List.reverse_prefix _ _ m.reverse] at h
  rwa [List.reverse_reverse] at h

theorem dropEdgeHyphens_prefix (l : List Char) :
    dropEdgeHyphens l <+: l.dropWhile (fun c => c == '-') :=
  reverse_dropWhile_reverse_prefix _ _

/-- Removing edge hyphens yields an infix of the original list. -/
theorem dropEdgeHyphens_within (l : List Char) : dropEdgeHyphens l <:+: l := by
  rw [List.infix_iff_prefix_suffix]
  exact ⟨l.dropWhile (fun c => c == '-'), dropEdgeHyphens_prefix l, List.dropWhile_suffix _⟩

theorem trimChars_within (l : List Char) : trimChars l <:+: l := by
  rw [List.infix_iff_prefix_suffix]
  exact ⟨l.dropWhile Char.isWhitespace, reverse_dropWhile_reverse_prefix _ _,
    List.dropWhile_suffix _⟩

theorem dropEdgeHyphens_head? (l : List Char) {x : Char} :
    (dropEdgeHyphens l).head? = some x → x ≠ '-' := by
  intro h
  obtain ⟨t, ht⟩ := dropEdgeHyphens_prefix l
  have hne : dropEdgeHyphens l ≠ [] := by
    intro hnil
    rw [hnil] at h
    simp at h
  have hh : (l.dropWhile (fun c => c == '-')).head? = some x := by
    rw [← ht, List.head?_append_of_ne_nil _ hne, h]
  have hpx := head?_dropWhile_ne _ l hh
  simpa using hpx

theorem dropEdgeHyphens_getLast? (l : List Char) {x : Char} :
    (dropEdgeHyphens l).getLast? = some x → x ≠ '-' := by
  intro h
  rw [List.getLast?_eq_head?_reverse] at h
  unfold dropEdgeHyphens at h
  rw [List.reverse_reverse] at h
  have hpx := head?_dropWhile_ne _ _ h
  simpa using hpx

/-- Characters surviving the full slug pipeline: lower-case letters,
digits, or hyphens. -/
theorem generateSlug_chars (title : String) {c : Char} :
    c ∈ (generateSlug title).data →
      (c.isLower || c.isDigit || c == '-') = true := by
  intro hmem
  have hmem' : c ∈ dropEdgeHyphens
      (collapseRuns false (stripSpecial (trimChars (title.data.map Char.toLower)))) := hmem
  have h1 : c ∈ collapseRuns false (stripSpecial (trimChars (title.data.map Char.toLower))) :=
    (dropEdgeHyphens_within _).sublist.subset hmem'
  rcases mem_collapseRuns _ _ h1 with rfl | ⟨h2, h3⟩
  · simp
  · unfold stripSpecial at h2
    rw [List.mem_filter] at h2
    obtain ⟨h4, h5⟩ := h2
    have h6 : c ∈ title.data.map Char.toLower := (trimChars_within _).sublist.subset h4
    have hlow : c.isUpper = false := by
      obtain ⟨c0, _, rfl⟩ := List.mem_map.mp h6
      exact toLower_isUpper_eq_false c0
    have hword : isWordChar c = true := by
      simp only [isCollapseChar, Bool.or_eq_false_iff] at h3
      simp only [Bool.or_eq_true] at h5
      rcases h5 with h5 | h5
      · rcases h5 with h5 | h5
        · exact h5
        · rw [h5] at h3
          simp at h3
      · rw [(by simpa using h5 : c = '-')] at h3
        simp at h3
    simp only [isWordChar, Bool.or_eq_true] at hword
    simp only [isCollapseChar, Bool.or_eq_false_iff] at h3
    rcases hword with hword | hword
    · rcases hword with hword | hword
      · simp only [Char.isAlpha, Bool.or_eq_true, hlow] at hword
        rcases hword with hword | hword
        · cases hword
        · simp [hword]
      · simp [hword]
    · rw [(by simpa using hword : c = '_')] at h3
      simp at h3

/-- C6: false as stated.  The claim (following the spec) says the collapse
step turns whitespace/underscore runs into single hyphens; the source regex
`[\s_-]+` also collapses hyphen runs.  On the title "a--b" the source
produces "a-b" while the claimed pipeline produces "a--b". -/
theorem c6_generateSlug_counterexample :
    generateSlug "a--b" = "a-b" ∧ specDescribedSlug "a--b" = "a--b" ∧
      generateSlug "a--b" ≠ specDescribedSlug "a--b" := by
  refine ⟨by decide, by decide, by decide⟩

/-- C6 (amended): generateSlug is a pure, deterministic function of the
title that lowercases, trims, strips characters outside word characters /
whitespace / hyphen, collapses every run of whitespace, underscores AND
hyphens into a single hyphen, and strips leading/trailing hyphens.  Hence
the output uses only lower-case letters, digits and hyphens, never two
adjacent hyphens, never an edge hyphen; "Hello World" and
"Hello World!!!" both map to "hello-world". -/
theorem c6_generateSlug_amended (title : String) :
    (∀ c ∈ (generateSlug title).data, (c.isLower || c.isDigit || c == '-') = true) ∧
    List.Chain' (fun a b => a ≠ '-' ∨ b ≠ '-') (generateSlug title).data ∧
    (∀ x, (generateSlug title).data.head? = some x → x ≠ '-') ∧
    (∀ x, (generateSlug title).data.getLast? = some x → x ≠ '-') ∧
    generateSlug "Hello World" = "hello-world" ∧
    generateSlug "Hello World!!!" = "hello-world" := by
  refine ⟨fun c hc => generateSlug_chars title hc, ?_, ?_, ?_, by decide, by decide⟩
  · exact List.Chain'.infix (collapseRuns_chain' false _) (dropEdgeHyphens_within _)
  · intro x hx
    exact dropEdgeHyphens_head? _ hx
  · intro x hx
    exact dropEdgeHyphens_getLast? _ hx

/-! ## Data model

Mirrors the Prisma schema: posts, likes (unique per (postId, userId)),
comments, user preferences.  The store is the relational database; like
and comment ids are allocated from counters. -/

inductive AppError where
  | notFound (msg : String)
  | forbidden (msg : String)
  | badRequest (msg : String)
deriving DecidableEq, Repr

structure Post where
  id : String
  title : String
  content : String
  slug : String
  tags : List String
  published : Bool
  publishedAt : Option Nat
  createdAt : Nat
  updatedAt : Nat
  featuredImage : Option String
  allowComments : Bool
  authorId : String
deriving DecidableEq, Repr

structure Like where
  id : Nat
  postId : String
  userId : String
deriving DecidableEq, Repr

structure Comment where
  id : Nat
  content : String
  postId : String
  authorId : String
  createdAt : Nat
deriving DecidableEq, Repr

structure UserPreference where
  userId : String
  tags : List String
deriving DecidableEq, Repr

structure Store where
  users : List String
  posts : List Post
  likes : List Like
  comments : List Comment
  preferences : List UserPreference
  nextLikeId : Nat
  nextCommentId : Nat
deriving Repr

/-- The `_count.likes` include / `COUNT(DISTINCT l.id)` aggregate. -/
def likesCount (s : Store) (postId : String) : Nat :=
  s.likes.countP (fun l => l.postId == postId)

/-- The `_count.comments` include / `COUNT(DISTINCT c.id)` aggregate. -/
def commentsCount (s : Store) (postId : String) : Nat :=
  s.comments.countP (fun c => c.postId == postId)

/-- The `likes: { where: { userId } }` include used to compute `isLiked`. -/
def isLikedBy (s : Store) (postId userId : String) : Bool :=
  s.likes.any (fun l => l.postId == postId && l.userId == userId)

/-! ## Listing pipeline (post.service.ts) -/

/-- Case-insensitive substring test, Prisma `contains` with
`mode: insensitive`. -/
def containsSub (hay needle : List Char) : Bool :=
  (List.range (hay.length + 1)).any (fun i => needle.isPrefixOf (hay.drop i))

def containsCI (hay needle : String) : Bool :=
  containsSub (hay.data.map Char.toLower) (needle.data.map Char.toLower)

inductive SortBy where
  | newest
  | oldest
  | popular
deriving DecidableEq, Repr

structure GetPostsDto where
  page : Nat := 1
  limit : Nat := 10
  search : Option String := none
  tags : List String := []
  sortBy : SortBy := .newest
deriving Repr

structure Pagination where
  page : Nat
  limit : Nat
  total : Nat
  totalPages : Nat
  hasNext : Bool
  hasPrev : Bool
deriving DecidableEq, Repr

structure PostView where
  id : String
  title : String
  content : String
  slug : String
  featuredImage : Option String
  authorId : String
  allowComments : Bool
  tags : List String
  published : Bool
  publishedAt : Option Nat
  createdAt : Nat
  updatedAt : Nat
  likesCount : Nat
  commentsCount : Nat
  isLiked : Option Bool
deriving DecidableEq, Repr

structure PostListResponse where
  posts : List PostView
  pagination : Pagination
deriving Repr

/-- formatPostResponse from post.service.ts. -/
def formatPostResponse (s : Store) (userId : Option String) (p : Post) : PostView :=
  { id := p.id
    title := p.title
    content := p.content
    slug := p.slug
    featuredImage := p.featuredImage
    authorId := p.authorId
    allowComments := p.allowComments
    tags := p.tags
    published := p.published
    publishedAt := p.publishedAt
    createdAt := p.createdAt
    updatedAt := p.updatedAt
    likesCount := likesCount s p.id
    commentsCount := commentsCount s p.id
    isLiked := userId.map (fun uid => isLikedBy s p.id uid) }

/-- The `where` clause of getAllPosts: always `published: true`; an
optional OR of case-insensitive substring matches on title/content (JS
skips the filter on an empty search string); an optional `hasSome` tags
filter. -/
def getAllPostsWhere (dto : GetPostsDto) (p : Post) : Bool :=
  p.published &&
  (match dto.search with
   | none => true
   | some q => q.isEmpty || (containsCI p.title q || containsCI p.content q)) &&
  (dto.tags.isEmpty || p.tags.any (fun t => dto.tags.contains t))

/-- The `orderBy` of getAllPosts and searchPosts, as a boolean total
preorder usable by merge sort: `sortLe k a b` means a may come before b.
The `popular` case is the source's explicit fallback to `createdAt desc`. -/
def sortLe (k : SortBy) (a b : Post) : Bool :=
  match k with
  | .newest => decide (b.publishedAt.getD 0 ≤ a.publishedAt.getD 0)
  | .oldest => decide (a.publishedAt.getD 0 ≤ b.publishedAt.getD 0)
  | .popular => decide (b.createdAt ≤ a.createdAt)

/-- getAllPosts: filter, order, paginate, and count with the same filter. -/
def getAllPosts (dto : GetPostsDto) (userId : Option String) (s : Store) : PostListResponse :=
  let skip := (dto.page - 1) * dto.limit
  let filtered := s.posts.filter (getAllPostsWhere dto)
  let sorted := filtered.mergeSort (sortLe dto.sortBy)
  let totalCount := (s.posts.filter (getAllPostsWhere dto)).length
  let totalPages := (totalCount + dto.limit - 1) / dto.limit
  { posts := ((sorted.drop skip).take dto.limit).map (formatPostResponse s userId)
    pagination :=
      { page := dto.page
        limit := dto.limit
        total := totalCount
        totalPages := totalPages
        hasNext := decide (dto.page < totalPages)
        hasPrev := decide (dto.page > 1) } }

/-- The `where` clause of searchPosts: `published: true` AND (when the
trimmed query is nonempty) an OR of substring matches on title/content or
an exact tag match, AND an optional `hasSome` tags filter. -/
def searchPostsWhere (query : String) (dto : GetPostsDto) (p : Post) : Bool :=
  p.published &&
  (query.trim.isEmpty ||
    (containsCI p.title query.trim || containsCI p.content query.trim ||
      p.tags.contains query.trim)) &&
  (dto.tags.isEmpty || p.tags.any (fun t => dto.tags.contains t))

/-- searchPosts: same pipeline as getAllPosts with its own filter. -/
def searchPosts (query : String) (dto : GetPostsDto) (userId : Option String)
    (s : Store) : PostListResponse :=
  let skip := (dto.page - 1) * dto.limit
  let filtered := s.posts.filter (searchPostsWhere query dto)
  let sorted := filtered.mergeSort (sortLe dto.sortBy)
  let totalCount := (s.posts.filter (searchPostsWhere query dto)).length
  let totalPages := (totalCount + dto.limit - 1) / dto.limit
  { posts := ((sorted.drop skip).take dto.limit).map (formatPostResponse s userId)
    pagination :=
      { page := dto.page
        limit := dto.limit
        total := totalCount
        totalPages := totalPages
        hasNext := decide (dto.page < totalPages)
        hasPrev := decide (dto.page > 1) } }

/-- getPostBySlug: `findUnique` on slug with `published: true`; absent or
unpublished posts give NotFound. -/
def getPostBySlug (slug : String) (userId : Option String) (s : Store) :
    Except AppError PostView :=
  match s.posts.find? (fun p => p.slug == slug && p.published) with
  | none => .error (.notFound "Post not found")
  | some p => .ok (formatPostResponse s userId p)

/-- The projection returned by getUserPosts (users service). -/
structure UserPostView where
  id : String
  title : String
  slug : String
  tags : List String
  publishedAt : Option Nat
  createdAt : Nat
  likesCount : Nat
  commentsCount : Nat
deriving DecidableEq, Repr

structure UserPostsResponse where
  posts : List UserPostView
  pagination : Pagination
deriving Repr

/-- getUserPosts: requires the user to exist, then lists that user's
published posts ordered by publishedAt descending. -/
def getUserPosts (targetUserId : String) (page limit : Nat) (s : Store) :
    Except AppError UserPostsResponse :=
  if !(s.users.contains targetUserId) then .error (.notFound "User not found")
  else
    let skip := (page - 1) * limit
    let filtered := s.posts.filter (fun p => p.authorId == targetUserId && p.published)
    let sorted := filtered.mergeSort (sortLe .newest)
    let totalCount := (s.posts.filter
      (fun p => p.authorId == targetUserId && p.published)).length
    let totalPages := (totalCount + limit - 1) / limit
    .ok
      { posts := ((sorted.drop skip).take limit).map (fun p =>
          { id := p.id
            title := p.title
            slug := p.slug
            tags := p.tags
            publishedAt := p.publishedAt
            createdAt := p.createdAt
            likesCount := likesCount s p.id
            commentsCount := commentsCount s p.id })
        pagination :=
          { page := page
            limit := limit
            total := totalCount
            totalPages := totalPages
            hasNext := decide (page < totalPages)
            hasPrev := decide (page > 1) } }

/-! ## Explore / recommendations (explore.service.ts, raw-SQL variant) -/

structure ExploreQueryDto where
  page : Nat := 1
  limit : Nat := 10
  tags : List String := []
deriving Repr

/-- `engagement_score` of the raw SQL query:
likes * 2 + comments. -/
def engagementScore (s : Store) (p : Post) : Nat :=
  likesCount s p.id * 2 + commentsCount s p.id

/-- Tag list used for filtering: explicit query tags, else the viewer's
stored preference tags, else none (empty list = no constraint). -/
def exploreFilterTags (q : ExploreQueryDto) (userId : Option String) (s : Store) :
    List String :=
  if !q.tags.isEmpty then q.tags
  else
    match userId with
    | some uid =>
      match s.preferences.find? (fun pr => pr.userId == uid) with
      | some pr => pr.tags
      | none => []
    | none => []

/-- The raw SQL WHERE clause: published, publishedAt non-null, and (when
filter tags are present) array overlap between the post's tags and the
filter tags. -/
def exploreWhere (filterTags : List String) (p : Post) : Bool :=
  p.published && p.publishedAt.isSome &&
    (filterTags.isEmpty || p.tags.any (fun t => filterTags.contains t))

/-- The raw SQL `ORDER BY engagement_score DESC, publishedAt DESC` as a
boolean total preorder: a may come before b. -/
def exploreLe (s : Store) (a b : Post) : Bool :=
  decide (engagementScore s b < engagementScore s a) ||
    (engagementScore s a == engagementScore s b &&
      decide (b.publishedAt.getD 0 ≤ a.publishedAt.getD 0))

structure PostSummary where
  id : String
  title : String
  slug : String
  tags : List String
  publishedAt : Nat
  likesCount : Nat
  commentsCount : Nat
deriving DecidableEq, Repr

structure ExploreResponse where
  posts : List PostSummary
  pagination : Pagination
  availableTags : List String
deriving Repr

/-- getAvailableTags: tags of published posts ranked by frequency, top 20.
The `take 1000` guard of the source is dropped (it only bounds work on
stores larger than anything quantified over here); ties keep list order as
the JS sort does. -/
def availableTags (s : Store) : List String :=
  let allTags := (s.posts.filter (fun p => p.published && !p.tags.isEmpty)).flatMap
    (fun p => p.tags)
  let uniqueTags := allTags.dedup
  let ranked := uniqueTags.mergeSort
    (fun a b => allTags.countP (fun t => t == b) ≤ allTags.countP (fun t => t == a))
  ranked.take 20

/-- getRecommendedContent, raw-SQL variant: filter, order by engagement
score then publish date (both descending) over the full candidate set,
then apply LIMIT/OFFSET; the COUNT query reuses the WHERE clause. -/
def getRecommendedContent (q : ExploreQueryDto) (userId : Option String) (s : Store) :
    ExploreResponse :=
  let skip := (q.page - 1) * q.limit
  let filterTags := exploreFilterTags q userId s
  let candidates := s.posts.filter (exploreWhere filterTags)
  let ordered := candidates.mergeSort (exploreLe s)
  let pagePosts := (ordered.drop skip).take q.limit
  let totalCount := (s.posts.filter (exploreWhere filterTags)).length
  let totalPages := (totalCount + q.limit - 1) / q.limit
  { posts := pagePosts.map (fun p =>
      { id := p.id
        title := p.title
        slug := p.slug
        tags := p.tags
        publishedAt := p.publishedAt.getD 0
        likesCount := likesCount s p.id
        commentsCount := commentsCount s p.id })
    pagination :=
      { page := q.page
        limit := q.limit
        total := totalCount
        totalPages := totalPages
        hasNext := decide (q.page < totalPages)
        hasPrev := decide (q.page > 1) }
    availableTags := availableTags s }

/-! ### Published-only visibility (C5) -/

theorem mem_of_mem_page {α : Type _} {le : α → α → Bool} {l : List α} {a b : Nat} {x : α}
    (h : x ∈ ((l.mergeSort le).drop a).take b) : x ∈ l := by
  have h1 : x ∈ (l.mergeSort le).drop a := (List.take_sublist _ _).subset h
  have h2 : x ∈ l.mergeSort le := (List.drop_sublist _ _).subset h1
  exact (List.mergeSort_perm l le).subset h2

/-- C5: a post with published = false never appears in any public read:
the full listing, search, the slug-addressed read, and the user-posts
listing only ever surface published posts, for every filter, sort mode,
page and viewer (including the author). -/
theorem c5_public_reads_published_only (s : Store) :
    (∀ (dto : GetPostsDto) (uid : Option String),
      ∀ v ∈ (getAllPosts dto uid s).posts, v.published = true) ∧
    (∀ (query : String) (dto : GetPostsDto) (uid : Option String),
      ∀ v ∈ (searchPosts query dto uid s).posts, v.published = true) ∧
    (∀ (slug : String) (uid : Option String) (v : PostView),
      getPostBySlug slug uid s = .ok v → v.published = true) ∧
    (∀ (targetUserId : String) (page limit : Nat) (r : UserPostsResponse),
      getUserPosts targetUserId page limit s = .ok r →
      ∀ v ∈ r.posts, ∃ p ∈ s.posts, p.id = v.id ∧ p.published = true) := by
  refine ⟨?_, ?_, ?_, ?_⟩
  · intro dto uid v hv
    simp only [getAllPosts, List.mem_map] at hv
    obtain ⟨p, hp, rfl⟩ := hv
    have hmem := mem_of_mem_page hp
    rw [List.mem_filter] at hmem
    have := hmem.2
    simp only [getAllPostsWhere, Bool.and_eq_true] at this
    exact this.1.1
  · intro query dto uid v hv
    simp only [searchPosts, List.mem_map] at hv
    obtain ⟨p, hp, rfl⟩ := hv
    have hmem := mem_of_mem_page hp
    rw [List.mem_filter] at hmem
    have := hmem.2
    simp only [searchPostsWhere, Bool.and_eq_true] at this
    exact this.1.1
  · intro slug uid v hv
    unfold getPostBySlug at hv
    rcases hfind : s.posts.find? (fun p => p.slug == slug && p.published) with _ | p
    · rw [hfind] at hv
      cases hv
    · rw [hfind] at hv
      have hp := List.find?_some hfind
      simp only [Bool.and_eq_true] at hp
      cases hv
      exact hp.2
  · intro targetUserId page limit r hr v hv
    unfold getUserPosts at hr
    split at hr
    · cases hr
    · cases hr
      simp only [List.mem_map] at hv
      obtain ⟨p, hp, rfl⟩ := hv
      have hmem := mem_of_mem_page hp
      rw [List.mem_filter] at hmem
      refine ⟨p, hmem.1, rfl, ?_⟩
      have := hmem.2
      simp only [Bool.and_eq_true] at this
      exact this.2

/-! ### Example fixtures shared by the witnesses below -/

def postPub : Post :=
  { id := "p1", title := "Hello", content := "body", slug := "hello",
    tags := ["a"], published := true, publishedAt := some 100,
    createdAt := 10, updatedAt := 10, featuredImage := none,
    allowComments := true, authorId := "u1" }

def postDraft : Post :=
  { id := "p2", title := "Secret", content := "draft body", slug := "secret",
    tags := ["a"], published := false, publishedAt := none,
    createdAt := 20, updatedAt := 20, featuredImage := none,
    allowComments := true, authorId := "u1" }

def egStore : Store :=
  { users := ["u1", "u2"], posts := [postPub, postDraft], likes := [],
    comments := [], preferences := [], nextLikeId := 0, nextCommentId := 0 }

/-- C5 witness: on a concrete store holding one published and one draft
post, the slug read of the published post returns a published view. -/
theorem c5_public_reads_published_only_witness :
    (formatPostResponse egStore none postPub).published = true :=
  (c5_public_reads_published_only egStore).2.2.1 "hello" none
    (formatPostResponse egStore none postPub) rfl

/-! ### Pagination contract (C2) -/

theorem length_page_chunk {α : Type _} (l : List α) (limit k : Nat) :
    ((l.drop (k * limit)).take limit).length
      = min ((k + 1) * limit) l.length - min (k * limit) l.length := by
  simp only [List.length_take, List.length_drop]
  have hmul : (k + 1) * limit = k * limit + limit := Nat.succ_mul k limit
  rw [hmul]
  generalize k * limit = m
  rcases le_total (m + limit) l.length with h | h
  · rw [min_eq_left h, min_eq_left (by omega)]
    omega
  · rcases le_total m l.length with h2 | h2
    · rw [min_eq_right h, min_eq_left h2]
      omega
    · rw [min_eq_right h, min_eq_right h2]
      omega

theorem le_ceilPages_mul (n limit : Nat) (hl : 1 ≤ limit) :
    n ≤ ((n + limit - 1) / limit) * limit := by
  rcases Nat.eq_zero_or_pos n with rfl | hn
  · simp
  · have hdm := Nat.div_add_mod (n + limit - 1) limit
    have hmod := Nat.mod_lt (n + limit - 1) (by omega : 0 < limit)
    rw [Nat.mul_comm] at hdm
    generalize hq : ((n + limit - 1) / limit) * limit = Q at *
    omega

/-- Splitting a list into pages of size `limit` exhausts it: the page
lengths over `ceil(length / limit)` pages sum to the length. -/
theorem sum_page_lengths {α : Type _} (l : List α) (limit : Nat) (hl : 1 ≤ limit) :
    (∑ k ∈ Finset.range ((l.length + limit - 1) / limit),
      ((l.drop (k * limit)).take limit).length) = l.length := by
  have hmono : Monotone (fun k => min (k * limit) l.length) := by
    intro a b hab
    exact min_le_min (Nat.mul_le_mul_right _ hab) le_rfl
  rw [Finset.sum_congr rfl (fun k _ => length_page_chunk l limit k)]
  rw [Finset.sum_range_tsub hmono]
  simp only [Nat.zero_mul, Nat.zero_min, Nat.sub_zero]
  rw [min_eq_right (le_ceilPages_mul l.length limit hl)]

theorem getAllPostsWhere_page (dto : GetPostsDto) (k : Nat) :
    getAllPostsWhere { dto with page := k } = getAllPostsWhere dto := by
  funext p
  simp [getAllPostsWhere]

/-- C2: for page ≥ 1 and limit in [1, 50], getAllPosts reports
total = COUNT over the same filter as the page query,
totalPages = ceil(total / limit), hasNext = page < totalPages,
hasPrev = page > 1, and the page sizes over all pages sum to total. -/
theorem c2_pagination_contract (dto : GetPostsDto) (uid : Option String) (s : Store)
    (hl1 : 1 ≤ dto.limit) (hl50 : dto.limit ≤ 50) (hp : 1 ≤ dto.page) :
    (getAllPosts dto uid s).pagination.total
        = (s.posts.filter (getAllPostsWhere dto)).length ∧
    (getAllPosts dto uid s).pagination.totalPages
        = ((getAllPosts dto uid s).pagination.total + dto.limit - 1) / dto.limit ∧
    ((getAllPosts dto uid s).pagination.hasNext = true ↔
        dto.page < (getAllPosts dto uid s).pagination.totalPages) ∧
    ((getAllPosts dto uid s).pagination.hasPrev = true ↔ 1 < dto.page) ∧
    (∑ k ∈ Finset.range (getAllPosts dto uid s).pagination.totalPages,
        (getAllPosts { dto with page := k + 1 } uid s).posts.length)
      = (getAllPosts dto uid s).pagination.total := by
  refine ⟨rfl, rfl, by simp [getAllPosts], by simp [getAllPosts], ?_⟩
  have hlen : ∀ k : Nat,
      (getAllPosts { dto with page := k + 1 } uid s).posts.length
        = ((((s.posts.filter (getAllPostsWhere dto)).mergeSort
            (sortLe dto.sortBy)).drop (k * dto.limit)).take dto.limit).length := by
    intro k
    simp only [getAllPosts, List.length_map, getAllPostsWhere_page]
    simp
  rw [Finset.sum_congr rfl (fun k _ => hlen k)]
  have hperm := List.mergeSort_perm (s.posts.filter (getAllPostsWhere dto)) (sortLe dto.sortBy)
  have hlen2 := hperm.length_eq
  simp only [getAllPosts]
  rw [← hlen2]
  exact sum_page_lengths _ dto.limit hl1

/-- C2 witness: the contract instantiated on a concrete store and query. -/
theorem c2_pagination_contract_witness :
    (getAllPosts { limit := 1 } none egStore).pagination.total
        = (egStore.posts.filter (getAllPostsWhere { limit := 1 })).length ∧
    (getAllPosts { limit := 1 } none egStore).pagination.totalPages
        = ((getAllPosts { limit := 1 } none egStore).pagination.total + 1 - 1) / 1 ∧
    ((getAllPosts { limit := 1 } none egStore).pagination.hasNext = true ↔
        1 < (getAllPosts { limit := 1 } none egStore).pagination.totalPages) ∧
    ((getAllPosts { limit := 1 } none egStore).pagination.hasPrev = true ↔ 1 < 1) ∧
    (∑ k ∈ Finset.range (getAllPosts { limit := 1 } none egStore).pagination.totalPages,
        (getAllPosts { page := k + 1, limit := 1 } none egStore).posts.length)
      = (getAllPosts { limit := 1 } none egStore).pagination.total :=
  c2_pagination_contract { limit := 1 } none egStore (by decide) (by decide) (by decide)

/-! ### Popular / engagement ordering (C1) -/

theorem exploreLe_trans (s : Store) (a b c : Post) (hab : exploreLe s a b = true)
    (hbc : exploreLe s b c = true) : exploreLe s a c = true := by
  simp only [exploreLe, Bool.or_eq_true, Bool.and_eq_true, decide_eq_true_eq,
    beq_iff_eq] at *
  omega

theorem exploreLe_total (s : Store) (a b : Post) :
    (exploreLe s a b || exploreLe s b a) = true := by
  simp only [exploreLe, Bool.or_eq_true, Bool.and_eq_true, decide_eq_true_eq,
    beq_iff_eq]
  omega

/-- The engagement order on returned summaries: strictly higher score
first, equal scores broken by publish date descending. -/
def summaryBefore (a b : PostSummary) : Prop :=
  b.likesCount * 2 + b.commentsCount < a.likesCount * 2 + a.commentsCount ∨
    (a.likesCount * 2 + a.commentsCount = b.likesCount * 2 + b.commentsCount ∧
      b.publishedAt ≤ a.publishedAt)

/-- The page returned by getRecommendedContent, before the DTO mapping. -/
def explorePagePosts (q : ExploreQueryDto) (userId : Option String) (s : Store) :
    List Post :=
  ((((s.posts.filter (exploreWhere (exploreFilterTags q userId s))).mergeSort
    (exploreLe s)).drop ((q.page - 1) * q.limit)).take q.limit)

def exploreSummary (s : Store) (p : Post) : PostSummary :=
  { id := p.id
    title := p.title
    slug := p.slug
    tags := p.tags
    publishedAt := p.publishedAt.getD 0
    likesCount := likesCount s p.id
    commentsCount := commentsCount s p.id }

theorem getRecommendedContent_posts_eq (q : ExploreQueryDto) (userId : Option String)
    (s : Store) :
    (getRecommendedContent q userId s).posts
      = (explorePagePosts q userId s).map (exploreSummary s) := rfl

theorem exploreLe_summaryBefore {s : Store} {a b : Post}
    (h : exploreLe s a b = true) : summaryBefore (exploreSummary s a) (exploreSummary s b) := by
  simp only [exploreLe, Bool.or_eq_true, Bool.and_eq_true, decide_eq_true_eq,
    beq_iff_eq, engagementScore] at h
  simp only [summaryBefore, exploreSummary]
  rcases h with h | ⟨h1, h2⟩
  · left
    exact h
  · right
    exact ⟨h1, h2⟩

theorem explore_ordered_pairwise (q : ExploreQueryDto) (userId : Option String)
    (s : Store) :
    List.Pairwise (fun a b => exploreLe s a b = true)
      ((s.posts.filter (exploreWhere (exploreFilterTags q userId s))).mergeSort
        (exploreLe s)) :=
  List.sorted_mergeSort (exploreLe_trans s) (exploreLe_total s) _

theorem exploreFilterTags_page (q : ExploreQueryDto) (userId : Option String)
    (s : Store) (k : Nat) :
    exploreFilterTags { q with page := k } userId s = exploreFilterTags q userId s := rfl

/-- C1 (amended): the engagement-weighted ordering
(score = likesCount * 2 + commentsCount descending, publishedAt descending
as secondary key, applied to the full filtered candidate set before
skip/take) holds for the explore/recommend variant: each returned page is
ordered by it and every post of a page ranks no lower than every post of
the next page.  The full public listing's `popular` mode does NOT use the
engagement score: it falls back to ordering by createdAt descending. -/
theorem c1_popular_ordering_amended :
    (∀ (q : ExploreQueryDto) (uid : Option String) (s : Store),
      List.Pairwise summaryBefore (getRecommendedContent q uid s).posts) ∧
    (∀ (q : ExploreQueryDto) (uid : Option String) (s : Store) (k : Nat),
      ∀ a ∈ (getRecommendedContent { q with page := k + 1 } uid s).posts,
      ∀ b ∈ (getRecommendedContent { q with page := k + 2 } uid s).posts,
        summaryBefore a b) ∧
    (∀ (dto : GetPostsDto) (uid : Option String) (s : Store), dto.sortBy = .popular →
      List.Pairwise (fun v1 v2 => v2.createdAt ≤ v1.createdAt)
        (getAllPosts dto uid s).posts) := by
  refine ⟨?_, ?_, ?_⟩
  · intro q uid s
    rw [getRecommendedContent_posts_eq, List.pairwise_map]
    have hsorted := explore_ordered_pairwise q uid s
    have hsub : (explorePagePosts q uid s).Sublist
        ((s.posts.filter (exploreWhere (exploreFilterTags q uid s))).mergeSort
          (exploreLe s)) :=
      (List.take_sublist _ _).trans (List.drop_sublist _ _)
    exact (List.Pairwise.sublist hsub hsorted).imp exploreLe_summaryBefore
  · intro q uid s k a ha b hb
    rw [getRecommendedContent_posts_eq, List.mem_map] at ha hb
    obtain ⟨pa, hpa, rfl⟩ := ha
    obtain ⟨pb, hpb, rfl⟩ := hb
    simp only [explorePagePosts, exploreFilterTags_page] at hpa hpb
    set ordered := (s.posts.filter (exploreWhere (exploreFilterTags q uid s))).mergeSort
      (exploreLe s) with hordered
    have hpa' : pa ∈ (ordered.drop (k * q.limit)).take q.limit := by
      simpa using hpa
    have hpb' : pb ∈ (ordered.drop ((k + 1) * q.limit)).take q.limit := by
      simpa using hpb
    have hconcat : (ordered.drop (k * q.limit)).take (q.limit + q.limit)
        = (ordered.drop (k * q.limit)).take q.limit
          ++ (ordered.drop ((k + 1) * q.limit)).take q.limit := by
      rw [List.take_add]
      congr 1
      rw [List.drop_drop, Nat.succ_mul]
    have hsorted := explore_ordered_pairwise q uid s
    rw [← hordered] at hsorted
    have hpair : List.Pairwise (fun a b => exploreLe s a b = true)
        ((ordered.drop (k * q.limit)).take (q.limit + q.limit)) :=
      List.Pairwise.sublist ((List.take_sublist _ _).trans (List.drop_sublist _ _)) hsorted
    rw [hconcat, List.pairwise_append] at hpair
    exact exploreLe_summaryBefore (hpair.2.2 pa hpa' pb hpb')
  · intro dto uid s hpop
    simp only [getAllPosts, List.pairwise_map]
    have htrans : ∀ a b c : Post, sortLe dto.sortBy a b = true →
        sortLe dto.sortBy b c = true → sortLe dto.sortBy a c = true := by
      intro a b c hab hbc
      rw [hpop] at *
      simp only [sortLe, decide_eq_true_eq] at *
      omega
    have htotal : ∀ a b : Post,
        (sortLe dto.sortBy a b || sortLe dto.sortBy b a) = true := by
      intro a b
      rw [hpop]
      simp only [sortLe, Bool.or_eq_true, decide_eq_true_eq]
      omega
    have hsorted := List.sorted_mergeSort htrans htotal
      (s.posts.filter (getAllPostsWhere dto))
    have hsub := (List.take_sublist dto.limit
        (List.drop ((dto.page - 1) * dto.limit)
          ((s.posts.filter (getAllPostsWhere dto)).mergeSort (sortLe dto.sortBy)))).trans
      (List.drop_sublist ((dto.page - 1) * dto.limit)
        ((s.posts.filter (getAllPostsWhere dto)).mergeSort (sortLe dto.sortBy)))
    refine (List.Pairwise.sublist hsub hsorted).imp ?_
    intro a b hab
    rw [hpop] at hab
    simp only [sortLe, decide_eq_true_eq] at hab
    simpa [formatPostResponse] using hab

def postA : Post :=
  { id := "pA", title := "A", content := "a", slug := "a",
    tags := [], published := true, publishedAt := some 50,
    createdAt := 10, updatedAt := 10, featuredImage := none,
    allowComments := true, authorId := "u1" }

def postB : Post :=
  { id := "pB", title := "B", content := "b", slug := "b",
    tags := [], published := true, publishedAt := some 60,
    createdAt := 20, updatedAt := 20, featuredImage := none,
    allowComments := true, authorId := "u1" }

/-- Post A has 5 likes and no comments (score 10); post B has no likes and
8 comments (score 8); B was created and published after A. -/
def c1Store : Store :=
  { users := ["u1"]
    posts := [postA, postB]
    likes := [⟨0, "pA", "u2"⟩, ⟨1, "pA", "u3"⟩, ⟨2, "pA", "u4"⟩,
      ⟨3, "pA", "u5"⟩, ⟨4, "pA", "u6"⟩]
    comments := [⟨0, "x", "pB", "u2", 0⟩, ⟨1, "x", "pB", "u2", 0⟩,
      ⟨2, "x", "pB", "u2", 0⟩, ⟨3, "x", "pB", "u2", 0⟩, ⟨4, "x", "pB", "u2", 0⟩,
      ⟨5, "x", "pB", "u2", 0⟩, ⟨6, "x", "pB", "u2", 0⟩, ⟨7, "x", "pB", "u2", 0⟩]
    preferences := []
    nextLikeId := 5
    nextCommentId := 8 }

unseal List.merge List.mergeSort in
/-- C1: false as stated for the full public listing.  With posts A
(5 likes, 0 comments, score 10) and B (0 likes, 8 comments, score 8), the
public listing under `popular` returns B before A, because getAllPosts'
`popular` branch explicitly falls back to `createdAt desc` instead of the
engagement score.  (The explore/recommend variant does rank A first.) -/
theorem c1_popular_counterexample :
    engagementScore c1Store postA = 10 ∧ engagementScore c1Store postB = 8 ∧
    ((getAllPosts { sortBy := .popular } none c1Store).posts.map (fun v => v.id))
        = ["pB", "pA"] ∧
    ((getRecommendedContent {} none c1Store).posts.map (fun v => v.id))
        = ["pA", "pB"] := by
  refine ⟨by decide, by decide, by decide, by decide⟩

/-- C1 (amended) witness: on the concrete store the popular public listing
is createdAt-descending, via the amended theorem. -/
theorem c1_popular_ordering_amended_witness :
    List.Pairwise (fun v1 v2 => v2.createdAt ≤ v1.createdAt)
      (getAllPosts { sortBy := .popular } none c1Store).posts :=
  c1_popular_ordering_amended.2.2 { sortBy := .popular } none c1Store rfl

/-! ### Slug uniqueness (C3): decimal repr facts -/

/-- Decimal digit characters of a natural number, most significant first. -/
def natDigits (n : Nat) : List Char :=
  if _h : n < 10 then [Nat.digitChar n]
  else natDigits (n / 10) ++ [Nat.digitChar (n % 10)]
termination_by n
decreasing_by
  exact Nat.div_lt_self (by omega) (by omega)

theorem natDigits_of_lt {n : Nat} (h : n < 10) : natDigits n = [Nat.digitChar n] := by
  rw [natDigits]
  simp [h]

theorem natDigits_of_ge {n : Nat} (h : ¬ n < 10) :
    natDigits n = natDigits (n / 10) ++ [Nat.digitChar (n % 10)] := by
  rw [natDigits]
  simp [h]

theorem toDigitsCore_succ (fuel n : Nat) (ds : List Char) :
    Nat.toDigitsCore 10 (fuel + 1) n ds
      = if n / 10 = 0 then Nat.digitChar (n % 10) :: ds
        else Nat.toDigitsCore 10 fuel (n / 10) (Nat.digitChar (n % 10) :: ds) := rfl

theorem toDigitsCore_eq_natDigits :
    ∀ (fuel n : Nat) (ds : List Char), n < 10 ^ (fuel + 1) →
      Nat.toDigitsCore 10 (fuel + 1) n ds = natDigits n ++ ds := by
  intro fuel
  induction fuel with
  | zero =>
    intro n ds hn
    have h10 : n < 10 := by simpa using hn
    have hdiv : n / 10 = 0 := Nat.div_eq_of_lt h10
    rw [toDigitsCore_succ, if_pos hdiv, natDigits_of_lt h10, Nat.mod_eq_of_lt h10]
    rfl
  | succ fuel ih =>
    intro n ds hn
    by_cases hdiv : n / 10 = 0
    · have h10 : n < 10 := by
        have hdm := Nat.div_add_mod n 10
        have hml := Nat.mod_lt n (by omega : 0 < 10)
        omega
      rw [toDigitsCore_succ, if_pos hdiv, natDigits_of_lt h10, Nat.mod_eq_of_lt h10]
      rfl
    · have h10 : ¬ n < 10 := by
        intro hlt
        exact hdiv (Nat.div_eq_of_lt hlt)
      have hlt' : n / 10 < 10 ^ (fuel + 1) := by
        rw [Nat.div_lt_iff_lt_mul (by omega : 0 < 10)]
        calc n < 10 ^ (fuel + 2) := hn
        _ = 10 ^ (fuel + 1) * 10 := by rw [Nat.pow_succ]
      rw [toDigitsCore_succ, if_neg hdiv, ih (n / 10) _ hlt', natDigits_of_ge h10]
      simp

theorem natDigits_eq_toDigits (n : Nat) : Nat.toDigits 10 n = natDigits n := by
  have hn : n < 10 ^ (n + 1) := by
    calc n < 2 ^ n := Nat.lt_two_pow n
    _ ≤ 10 ^ n := Nat.pow_le_pow_left (by omega) n
    _ ≤ 10 ^ (n + 1) := Nat.pow_le_pow_right (by omega) (by omega)
  have h := toDigitsCore_eq_natDigits n n [] hn
  rw [List.append_nil] at h
  exact h

def decodeStep (acc : Nat) (c : Char) : Nat := acc * 10 + (c.toNat - 48)

theorem digitChar_decode {d : Nat} (h : d < 10) : (Nat.digitChar d).toNat - 48 = d := by
  interval_cases d <;> decide

theorem foldl_decode_natDigits :
    ∀ (n acc : Nat), (natDigits n).foldl decodeStep acc
      = acc * 10 ^ (natDigits n).length + n := by
  intro n
  induction n using Nat.strong_induction_on with
  | _ n ih =>
    intro acc
    by_cases h10 : n < 10
    · rw [natDigits_of_lt h10]
      simp [decodeStep, digitChar_decode h10]
    · rw [natDigits_of_ge h10]
      have hlt : n / 10 < n := Nat.div_lt_self (by omega) (by omega)
      rw [List.foldl_append, ih (n / 10) hlt acc]
      simp only [List.foldl_cons, List.foldl_nil, decodeStep]
      rw [digitChar_decode (Nat.mod_lt n (by omega))]
      rw [List.length_append]
      simp only [List.length_singleton]
      rw [Nat.pow_succ]
      have hdm := Nat.div_add_mod n 10
      have hexp : acc * (10 ^ (natDigits (n / 10)).length * 10)
          = acc * 10 ^ (natDigits (n / 10)).length * 10 := by ring
      rw [hexp]
      generalize acc * 10 ^ (natDigits (n / 10)).length = A
      generalize (10 : Nat) ^ (natDigits (n / 10)).length = B at *
      omega

theorem natDigits_injective : Function.Injective natDigits := by
  intro m n h
  have hm := foldl_decode_natDigits m 0
  have hn := foldl_decode_natDigits n 0
  rw [h] at hm
  omega

theorem repr_eq_natDigits (n : Nat) : Nat.repr n = (natDigits n).asString := by
  rw [← natDigits_eq_toDigits]
  rfl

theorem repr_injective : Function.Injective Nat.repr := by
  intro m n h
  rw [repr_eq_natDigits, repr_eq_natDigits] at h
  apply natDigits_injective
  have := congrArg String.data h
  simpa [List.asString] using this

/-! ### Slug uniqueness (C3): the ensureUniqueSlug loop -/

/-- The `findUnique({ where: { slug } })` existence check. -/
def findBySlug (posts : List Post) (slug : String) : Option Post :=
  posts.find? (fun p => p.slug == slug)

/-- One iteration's test: the candidate is taken unless no post holds it
or the holder is the excluded post (a post may keep its own slug). -/
def slugIsTaken (posts : List Post) (slug : String) (excludePostId : Option String) : Bool :=
  match findBySlug posts slug with
  | none => false
  | some p => excludePostId != some p.id

/-- Candidate sequence of the loop: the base slug, then base-1, base-2, … -/
def slugCandidate (baseSlug : String) : Nat → String
  | 0 => baseSlug
  | n + 1 => baseSlug ++ "-" ++ Nat.repr (n + 1)

/-- The while loop of ensureUniqueSlug.  The fuel argument only bounds the
number of iterations so that the recursion is structural;
`ensureUniqueSlug` always supplies enough fuel (one more than the number
of posts, see `exists_free_slugCandidate`), and `ensureUniqueSlugLoop_spec`
shows the loop then returns the first free candidate, exactly as the
source's unbounded while loop does. -/
def ensureUniqueSlugLoop (posts : List Post) (excl : Option String) (baseSlug : String) :
    Nat → Nat → String
  | 0, counter => slugCandidate baseSlug counter
  | fuel + 1, counter =>
    if slugIsTaken posts (slugCandidate baseSlug counter) excl then
      ensureUniqueSlugLoop posts excl baseSlug fuel (counter + 1)
    else slugCandidate baseSlug counter

/-- ensureUniqueSlug from post.service.ts. -/
def ensureUniqueSlug (posts : List Post) (baseSlug : String) (excl : Option String) : String :=
  ensureUniqueSlugLoop posts excl baseSlug (posts.length + 1) 0

theorem repr_data_injective {m n : Nat} (h : (Nat.repr m).data = (Nat.repr n).data) :
    m = n := by
  apply natDigits_injective
  rw [repr_eq_natDigits, repr_eq_natDigits] at h
  simpa [List.asString] using h

theorem slugCandidate_injective (base : String) : Function.Injective (slugCandidate base) := by
  intro m n h
  match m, n with
  | 0, 0 => rfl
  | 0, n + 1 =>
    exfalso
    have hl := congrArg String.length h
    have hdash : ("-" : String).length = 1 := rfl
    simp only [slugCandidate, String.length_append, hdash] at hl
    omega
  | m + 1, 0 =>
    exfalso
    have hl := congrArg String.length h
    have hdash : ("-" : String).length = 1 := rfl
    simp only [slugCandidate, String.length_append, hdash] at hl
    omega
  | m + 1, n + 1 =>
    have hd := congrArg String.data h
    simp only [slugCandidate, String.data_append] at hd
    have hd' := List.append_cancel_left hd
    have := repr_data_injective hd'
    omega

/-- Pigeonhole: among the first `posts.length + 1` candidates at least one
is free, since the taken ones map injectively to slugs of posts. -/
theorem exists_free_slugCandidate (posts : List Post) (excl : Option String) (base : String) :
    ∃ j, j < posts.length + 1 ∧ slugIsTaken posts (slugCandidate base j) excl = false := by
  by_contra hcon
  push_neg at hcon
  have htaken : ∀ j, j < posts.length + 1 →
      slugCandidate base j ∈ posts.map Post.slug := by
    intro j hj
    have h := eq_true_of_ne_false (hcon j hj)
    unfold slugIsTaken findBySlug at h
    rcases hfind : posts.find? (fun p => p.slug == slugCandidate base j) with _ | p
    · rw [hfind] at h
      simp at h
    · have hmem := List.mem_of_find?_eq_some hfind
      have hpred := List.find?_some hfind
      rw [beq_iff_eq] at hpred
      rw [← hpred]
      exact List.mem_map_of_mem Post.slug hmem
  have hcard : (Finset.range (posts.length + 1)).card
      ≤ (posts.map Post.slug).toFinset.card := by
    apply Finset.card_le_card_of_injOn (slugCandidate base)
    · intro j hj
      rw [List.mem_toFinset]
      exact htaken j (Finset.mem_range.mp hj)
    · intro a _ b _ hab
      exact slugCandidate_injective base hab
  have h1 : (Finset.range (posts.length + 1)).card = posts.length + 1 :=
    Finset.card_range _
  have h2 : (posts.map Post.slug).toFinset.card ≤ (posts.map Post.slug).length :=
    List.toFinset_card_le _
  simp only [List.length_map] at h2
  omega

/-- The loop returns the first free candidate at or after `counter`,
provided a free candidate lies within the fuel bound. -/
theorem ensureUniqueSlugLoop_spec (posts : List Post) (excl : Option String) (base : String) :
    ∀ (fuel counter : Nat),
      (∃ j, j < fuel ∧ slugIsTaken posts (slugCandidate base (counter + j)) excl = false) →
      ∃ j, slugIsTaken posts (slugCandidate base (counter + j)) excl = false ∧
        (∀ i, i < j → slugIsTaken posts (slugCandidate base (counter + i)) excl = true) ∧
        ensureUniqueSlugLoop posts excl base fuel counter = slugCandidate base (counter + j) := by
  intro fuel
  induction fuel with
  | zero =>
    rintro counter ⟨j, hj, _⟩
    omega
  | succ fuel ih =>
    rintro counter ⟨j, hj, hfree⟩
    by_cases h0 : slugIsTaken posts (slugCandidate base counter) excl = true
    · have hj0 : j ≠ 0 := by
        intro hj0
        rw [hj0, Nat.add_zero] at hfree
        rw [h0] at hfree
        cases hfree
      have hex : ∃ j', j' < fuel ∧
          slugIsTaken posts (slugCandidate base (counter + 1 + j')) excl = false := by
        refine ⟨j - 1, by omega, ?_⟩
        have harith : counter + 1 + (j - 1) = counter + j := by omega
        rw [harith]
        exact hfree
      obtain ⟨j', hf', hmin', heq'⟩ := ih (counter + 1) hex
      refine ⟨j' + 1, ?_, ?_, ?_⟩
      · have harith : counter + (j' + 1) = counter + 1 + j' := by omega
        rw [harith]
        exact hf'
      · intro i hi
        cases i with
        | zero => simpa using h0
        | succ i =>
          have harith : counter + (i + 1) = counter + 1 + i := by omega
          rw [harith]
          exact hmin' i (by omega)
      · simp only [ensureUniqueSlugLoop, h0, if_true]
        rw [heq']
        congr 1
        omega
    · rw [Bool.not_eq_true] at h0
      refine ⟨0, by simpa using h0, by omega, ?_⟩
      simp only [ensureUniqueSlugLoop, h0]
      simp

theorem ensureUniqueSlug_spec (posts : List Post) (base : String) (excl : Option String) :
    ∃ j, slugIsTaken posts (slugCandidate base j) excl = false ∧
      (∀ i, i < j → slugIsTaken posts (slugCandidate base i) excl = true) ∧
      ensureUniqueSlug posts base excl = slugCandidate base j := by
  obtain ⟨j, hj, hfree⟩ := exists_free_slugCandidate posts excl base
  have h := ensureUniqueSlugLoop_spec posts excl base (posts.length + 1) 0
    ⟨j, hj, by simpa using hfree⟩
  simpa using h

theorem slugIsTaken_none_iff (posts : List Post) (slug : String) :
    slugIsTaken posts slug none = false ↔ findBySlug posts slug = none := by
  unfold slugIsTaken
  rcases h : findBySlug posts slug with _ | p <;> simp

theorem findBySlug_append (posts extra : List Post) (slug : String) :
    findBySlug (posts ++ extra) slug = (findBySlug posts slug).or (findBySlug extra slug) :=
  List.find?_append

/-- CreatePostDto (post/dto/post.dto.ts) with the service's defaults
(`allowComments ?? true`, `published ?? false`, `tags || []`). -/
structure CreatePostDto where
  title : String
  content : String
  tags : List String := []
  published : Bool := false
  allowComments : Bool := true
  featuredImageFile : Option String := none
deriving Repr

/-- createPost: derive a slug from the title, make it unique against the
existing posts, and insert the row.  The caller supplies the fresh row id
and the clock value. -/
def createPost (dto : CreatePostDto) (userId newId : String) (now : Nat) (s : Store) :
    Store × Post :=
  let slug := generateSlug dto.title
  let uniqueSlug := ensureUniqueSlug s.posts slug none
  let p : Post :=
    { id := newId, title := dto.title, content := dto.content, slug := uniqueSlug,
      tags := dto.tags, published := dto.published,
      publishedAt := if dto.published then some now else none,
      createdAt := now, updatedAt := now, featuredImage := dto.featuredImageFile,
      allowComments := dto.allowComments, authorId := userId }
  ({ s with posts := s.posts ++ [p] }, p)

theorem slugCandidate_one_length (base : String) :
    base.length < (slugCandidate base 1).length := by
  have hdash : ("-" : String).length = 1 := rfl
  have hcand1 : slugCandidate base 1 = base ++ "-" ++ Nat.repr 1 := rfl
  rw [hcand1, String.length_append, String.length_append, hdash]
  omega

theorem createPost_slug (dto : CreatePostDto) (u i : String) (t : Nat) (s : Store) :
    (createPost dto u i t s).2.slug = ensureUniqueSlug s.posts (generateSlug dto.title) none :=
  rfl

theorem createPost_posts (dto : CreatePostDto) (u i : String) (t : Nat) (s : Store) :
    (createPost dto u i t s).1.posts = s.posts ++ [(createPost dto u i t s).2] :=
  rfl

/-- After inserting a post that holds the base slug, the next unique slug
for the same base is the base suffixed -1, provided that candidate is
otherwise free. -/
theorem ensureUniqueSlug_second (posts : List Post) (p1 : Post) (base : String)
    (hslug1 : p1.slug = base)
    (hfree0 : slugIsTaken posts base none = false)
    (hfree1 : slugIsTaken posts (slugCandidate base 1) none = false) :
    ensureUniqueSlug (posts ++ [p1]) base none = slugCandidate base 1 := by
  have hlen := slugCandidate_one_length base
  have hne1 : (p1.slug == slugCandidate base 1) = false := by
    rw [beq_eq_false_iff_ne, hslug1]
    intro h
    have hl := congrArg String.length h
    omega
  have htaken0 : slugIsTaken (posts ++ [p1]) base none = true := by
    unfold slugIsTaken
    rw [findBySlug_append, (slugIsTaken_none_iff posts base).mp hfree0]
    have hpb : (p1.slug == base) = true := by rw [beq_iff_eq, hslug1]
    simp [findBySlug, List.find?, hpb]
  have hfree1' : slugIsTaken (posts ++ [p1]) (slugCandidate base 1) none = false := by
    rw [slugIsTaken_none_iff, findBySlug_append,
      (slugIsTaken_none_iff posts (slugCandidate base 1)).mp hfree1]
    simp [findBySlug, List.find?, hne1]
  obtain ⟨j, hfree, hmin, heq⟩ := ensureUniqueSlug_spec (posts ++ [p1]) base none
  have hj0 : j ≠ 0 := by
    intro h0
    rw [h0] at hfree
    simp only [slugCandidate] at hfree
    rw [htaken0] at hfree
    cases hfree
  have hj1 : j = 1 := by
    by_contra hne
    have h := hmin 1 (by omega)
    rw [hfree1'] at h
    cases h
  rw [heq, hj1]

/-- C3: ensureUniqueSlug terminates on every finite post set and returns
the candidate itself when no post other than the excluded one holds it,
otherwise candidate-n for the smallest free n ≥ 1; consequently creating
two posts with duplicate titles yields distinct slugs, the second
suffixed -1. -/
theorem c3_ensureUniqueSlug_behavior :
    (∀ (posts : List Post) (base : String) (excl : Option String),
      slugIsTaken posts (ensureUniqueSlug posts base excl) excl = false) ∧
    (∀ (posts : List Post) (base : String) (excl : Option String),
      slugIsTaken posts base excl = false → ensureUniqueSlug posts base excl = base) ∧
    (∀ (posts : List Post) (base : String) (excl : Option String),
      slugIsTaken posts base excl = true →
      ∃ n, 1 ≤ n ∧ ensureUniqueSlug posts base excl = slugCandidate base n ∧
        slugIsTaken posts (slugCandidate base n) excl = false ∧
        ∀ i, i < n → slugIsTaken posts (slugCandidate base i) excl = true) ∧
    (∀ (dto1 dto2 : CreatePostDto) (u1 u2 i1 i2 : String) (t1 t2 : Nat) (s : Store),
      dto1.title = dto2.title →
      slugIsTaken s.posts (generateSlug dto1.title) none = false →
      slugIsTaken s.posts (slugCandidate (generateSlug dto1.title) 1) none = false →
      (createPost dto1 u1 i1 t1 s).2.slug = generateSlug dto1.title ∧
      (createPost dto2 u2 i2 t2 (createPost dto1 u1 i1 t1 s).1).2.slug
        = slugCandidate (generateSlug dto1.title) 1 ∧
      (createPost dto1 u1 i1 t1 s).2.slug
        ≠ (createPost dto2 u2 i2 t2 (createPost dto1 u1 i1 t1 s).1).2.slug) := by
  have hbase : ∀ posts base excl, slugIsTaken posts base excl = false →
      ensureUniqueSlug posts base excl = base := by
    intro posts base excl hb
    obtain ⟨j, hfree, hmin, heq⟩ := ensureUniqueSlug_spec posts base excl
    have hj0 : j = 0 := by
      by_contra hne
      have h := hmin 0 (by omega)
      simp only [slugCandidate] at h
      rw [hb] at h
      cases h
    rw [heq, hj0]
    rfl
  refine ⟨?_, hbase, ?_, ?_⟩
  · intro posts base excl
    obtain ⟨j, hfree, _, heq⟩ := ensureUniqueSlug_spec posts base excl
    rw [heq]
    exact hfree
  · intro posts base excl hb
    obtain ⟨j, hfree, hmin, heq⟩ := ensureUniqueSlug_spec posts base excl
    have hj0 : j ≠ 0 := by
      intro h0
      rw [h0] at hfree
      simp only [slugCandidate] at hfree
      rw [hb] at hfree
      cases hfree
    exact ⟨j, by omega, heq, hfree, hmin⟩
  · intro dto1 dto2 u1 u2 i1 i2 t1 t2 s htitle hfree0 hfree1
    have hslug1 : (createPost dto1 u1 i1 t1 s).2.slug = generateSlug dto1.title := by
      rw [createPost_slug]
      exact hbase s.posts (generateSlug dto1.title) none hfree0
    have hsecond : (createPost dto2 u2 i2 t2 (createPost dto1 u1 i1 t1 s).1).2.slug
        = slugCandidate (generateSlug dto1.title) 1 := by
      rw [createPost_slug, createPost_posts, ← htitle]
      exact ensureUniqueSlug_second s.posts _ _ hslug1 hfree0 hfree1
    refine ⟨hslug1, hsecond, ?_⟩
    rw [hslug1, hsecond]
    intro h
    have hl := congrArg String.length h
    have := slugCandidate_one_length (generateSlug dto1.title)
    omega

/-- C3 witness: on the concrete store (slugs "hello" and "secret"),
creating two posts titled "Hello World" yields slugs hello-world and
hello-world-1. -/
theorem c3_ensureUniqueSlug_behavior_witness :
    (createPost { title := "Hello World", content := "x" } "u1" "n1" 1 egStore).2.slug
      = generateSlug "Hello World" ∧
    (createPost { title := "Hello World", content := "y" } "u2" "n2" 2
        (createPost { title := "Hello World", content := "x" } "u1" "n1" 1 egStore).1).2.slug
      = slugCandidate (generateSlug "Hello World") 1 ∧
    (createPost { title := "Hello World", content := "x" } "u1" "n1" 1 egStore).2.slug
      ≠ (createPost { title := "Hello World", content := "y" } "u2" "n2" 2
        (createPost { title := "Hello World", content := "x" } "u1" "n1" 1 egStore).1).2.slug :=
  c3_ensureUniqueSlug_behavior.2.2.2
    { title := "Hello World", content := "x" } { title := "Hello World", content := "y" }
    "u1" "u2" "n1" "n2" 1 2 egStore rfl (by decide) (by decide)

/-! ## Post lifecycle: update and delete (post.service.ts) -/

/-- UpdatePostDto: every field optional; only provided fields change. -/
structure UpdatePostDto where
  title : Option String := none
  content : Option String := none
  featuredImage : Option String := none
  allowComments : Option Bool := none
  tags : Option (List String) := none
  published : Option Bool := none
deriving Repr

/-- The update payload applied to the stored row: spread of the provided
DTO fields, the freshly derived slug when the title changed, and the
publishedAt transition of the publication-status block: set to `now` when
publishing a draft, cleared when un-publishing, otherwise untouched. -/
def applyUpdateData (p : Post) (dto : UpdatePostDto) (newSlug : Option String)
    (now : Nat) : Post :=
  { p with
    title := dto.title.getD p.title
    content := dto.content.getD p.content
    featuredImage := match dto.featuredImage with
      | some u => some u
      | none => p.featuredImage
    allowComments := dto.allowComments.getD p.allowComments
    tags := dto.tags.getD p.tags
    published := dto.published.getD p.published
    publishedAt := match dto.published with
      | some true => if !p.published then some now else p.publishedAt
      | some false => if p.published then none else p.publishedAt
      | none => p.publishedAt
    slug := newSlug.getD p.slug
    updatedAt := now }

/-- The slug part of the update: when the title is provided and differs
from the stored one, a fresh unique slug is derived from the new title,
excluding the post's own id. -/
def updateNewSlug (s : Store) (postId : String) (dto : UpdatePostDto) (p : Post) :
    Option String :=
  match dto.title with
  | some t =>
    if t ≠ p.title then some (ensureUniqueSlug s.posts (generateSlug t) (some postId))
    else none
  | none => none

/-- updatePost: existence check first (NotFound), then ownership
(Forbidden), then slug regeneration on a changed title and the field-level
update.  On failure the store is returned unchanged. -/
def updatePost (postId : String) (dto : UpdatePostDto) (userId : String) (now : Nat)
    (s : Store) : Except AppError Post × Store :=
  match s.posts.find? (fun p => p.id == postId) with
  | none => (.error (.notFound "Post not found"), s)
  | some existingPost =>
    if existingPost.authorId ≠ userId then
      (.error (.forbidden "You can only edit your own posts"), s)
    else
      let updated := applyUpdateData existingPost dto
        (updateNewSlug s postId dto existingPost) now
      (.ok updated,
        { s with posts := s.posts.map (fun p => if p.id == postId then updated else p) })

/-- deletePost: existence check first (NotFound), then ownership
(Forbidden), then the row is removed and its comments and likes cascade
(schema: ON DELETE CASCADE on both foreign keys). -/
def deletePost (postId : String) (userId : String) (s : Store) :
    Except AppError Unit × Store :=
  match s.posts.find? (fun p => p.id == postId) with
  | none => (.error (.notFound "Post not found"), s)
  | some existingPost =>
    if existingPost.authorId ≠ userId then
      (.error (.forbidden "You can only delete your own posts"), s)
    else
      (.ok (),
        { s with posts := s.posts.filter (fun p => !(p.id == postId))
                 likes := s.likes.filter (fun l => !(l.postId == postId))
                 comments := s.comments.filter (fun c => !(c.postId == postId)) })

/-! ### publishedAt transitions (C4) -/

theorem find?_update (posts : List Post) (postId : String) (p updated : Post)
    (hfind : posts.find? (fun q => q.id == postId) = some p)
    (hid : updated.id = p.id) :
    (posts.map (fun q => if q.id == postId then updated else q)).find?
      (fun q => q.id == postId) = some updated := by
  have hpid : (p.id == postId) = true := by
    have h := List.find?_some hfind
    simpa using h
  rw [List.find?_map]
  have hfun : ((fun q : Post => q.id == postId) ∘
      (fun q => if q.id == postId then updated else q)) = fun q : Post => q.id == postId := by
    funext q
    simp only [Function.comp_apply]
    by_cases hq : (q.id == postId) = true
    · rw [if_pos hq, hid]
      rw [hpid, hq]
    · rw [if_neg hq]
  rw [hfun, hfind, Option.map_some']
  rw [if_pos hpid]

theorem updatePost_ok (postId : String) (dto : UpdatePostDto) (userId : String)
    (now : Nat) (s : Store) (p : Post)
    (hfind : s.posts.find? (fun q => q.id == postId) = some p)
    (hauth : p.authorId = userId) :
    updatePost postId dto userId now s
      = (.ok (applyUpdateData p dto (updateNewSlug s postId dto p) now),
        { s with posts := s.posts.map (fun q =>
            if q.id == postId then
              applyUpdateData p dto (updateNewSlug s postId dto p) now
            else q) }) := by
  unfold updatePost
  rw [hfind]
  simp [hauth]

/-- C4: a post update sets publishedAt = now exactly when publishing a
draft, clears it exactly when un-publishing, leaves it untouched when the
published flag does not change; the invariant publishedAt.isSome =
published is preserved; and un-publishing then re-publishing stamps the
later clock value, which is strictly later than the original publish time
whenever the clock advanced past it. -/
theorem c4_publishedAt_transitions :
    (∀ (postId userId : String) (dto : UpdatePostDto) (now : Nat) (s : Store)
       (p p' : Post),
      s.posts.find? (fun q => q.id == postId) = some p →
      (updatePost postId dto userId now s).1 = .ok p' →
      ((dto.published = some true → p.published = false → p'.publishedAt = some now) ∧
       (dto.published = some false → p.published = true → p'.publishedAt = none) ∧
       ((dto.published = none ∨ dto.published = some p.published) →
         p'.publishedAt = p.publishedAt) ∧
       p'.published = dto.published.getD p.published ∧
       (p.publishedAt.isSome = p.published → p'.publishedAt.isSome = p'.published))) ∧
    (∀ (postId userId : String) (s : Store) (p : Post) (t0 now1 now2 : Nat),
      s.posts.find? (fun q => q.id == postId) = some p →
      p.published = true → p.publishedAt = some t0 → p.authorId = userId → t0 < now2 →
      ∃ p2, (updatePost postId { published := some true } userId now2
          (updatePost postId { published := some false } userId now1 s).2).1 = .ok p2 ∧
        p2.publishedAt = some now2 ∧ t0 < now2) := by
  have hmain : ∀ (postId userId : String) (dto : UpdatePostDto) (now : Nat) (s : Store)
      (p p' : Post),
      s.posts.find? (fun q => q.id == postId) = some p →
      (updatePost postId dto userId now s).1 = .ok p' →
      p' = applyUpdateData p dto (updateNewSlug s postId dto p) now := by
    intro postId userId dto now s p p' hfind hok
    by_cases hauth : p.authorId = userId
    · rw [updatePost_ok postId dto userId now s p hfind hauth] at hok
      simp at hok
      exact hok.symm
    · unfold updatePost at hok
      rw [hfind] at hok
      simp only [ne_eq, hauth, not_false_eq_true, if_true, ite_true] at hok
      cases hok
  constructor
  · intro postId userId dto now s p p' hfind hok
    have hp' := hmain postId userId dto now s p p' hfind hok
    subst hp'
    refine ⟨?_, ?_, ?_, ?_, ?_⟩
    · intro hd hp
      simp [applyUpdateData, hd, hp]
    · intro hd hp
      simp [applyUpdateData, hd, hp]
    · intro hd
      rcases hd with hd | hd
      · simp [applyUpdateData, hd]
      · rcases hpub : p.published with _ | _
        · rw [hpub] at hd
          simp [applyUpdateData, hd, hpub]
        · rw [hpub] at hd
          simp [applyUpdateData, hd, hpub]
    · simp [applyUpdateData]
    · intro hinv
      rcases hd : dto.published with _ | b
      · simp [applyUpdateData, hd, hinv]
      · rcases b with _ | _
        · rcases hpub : p.published with _ | _
          · simp [applyUpdateData, hd, hpub, hinv, hpub ▸ hinv]
          · simp [applyUpdateData, hd, hpub]
        · rcases hpub : p.published with _ | _
          · simp [applyUpdateData, hd, hpub]
          · simp [applyUpdateData, hd, hpub, hpub ▸ hinv]
  · intro postId userId s p t0 now1 now2 hfind hpub hpubAt hauth hlt
    have h1 := updatePost_ok postId { published := some false } userId now1 s p hfind hauth
    set updated1 := applyUpdateData p { published := some false }
      (updateNewSlug s postId { published := some false } p) now1 with hu1
    have hstore1 : (updatePost postId { published := some false } userId now1 s).2
        = { s with posts := s.posts.map (fun q => if q.id == postId then updated1 else q) } := by
      rw [h1]
    have hfind1 : ((updatePost postId { published := some false } userId now1 s).2).posts.find?
        (fun q => q.id == postId) = some updated1 := by
      rw [hstore1]
      exact find?_update s.posts postId p updated1 hfind rfl
    have hauth1 : updated1.authorId = userId := hauth
    have h2 := updatePost_ok postId { published := some true } userId now2
      (updatePost postId { published := some false } userId now1 s).2 updated1 hfind1 hauth1
    refine ⟨applyUpdateData updated1 { published := some true }
      (updateNewSlug (updatePost postId { published := some false } userId now1 s).2
        postId { published := some true } updated1) now2, ?_, ?_, hlt⟩
    · rw [h2]
    · have hpub1 : updated1.published = false := by simp [hu1, applyUpdateData]
      simp [applyUpdateData, hpub1]

/-- C4 witness: un-publishing post p1 at time 200 and re-publishing at
time 300 stamps publishedAt = 300, strictly later than the original
publish time 100. -/
theorem c4_publishedAt_transitions_witness :
    ∃ p2, (updatePost "p1" { published := some true } "u1" 300
        (updatePost "p1" { published := some false } "u1" 200 egStore).2).1 = .ok p2 ∧
      p2.publishedAt = some 300 ∧ 100 < 300 :=
  c4_publishedAt_transitions.2 "p1" "u1" egStore postPub 100 200 300
    (by decide) (by decide) (by decide) (by decide) (by decide)

/-! ### Existence before ownership (C7) -/

/-- C7: for update and delete, a missing post id yields NotFound for every
caller (never Forbidden), an existing post with a different author yields
Forbidden, and in both failure cases the returned store is the input store
unchanged. -/
theorem c7_update_delete_auth (postId userId : String) (dto : UpdatePostDto)
    (now : Nat) (s : Store) :
    (s.posts.find? (fun p => p.id == postId) = none →
      updatePost postId dto userId now s = (.error (.notFound "Post not found"), s) ∧
      deletePost postId userId s = (.error (.notFound "Post not found"), s)) ∧
    (∀ p, s.posts.find? (fun p => p.id == postId) = some p → p.authorId ≠ userId →
      updatePost postId dto userId now s
        = (.error (.forbidden "You can only edit your own posts"), s) ∧
      deletePost postId userId s
        = (.error (.forbidden "You can only delete your own posts"), s)) := by
  constructor
  · intro h
    constructor
    · unfold updatePost
      rw [h]
    · unfold deletePost
      rw [h]
  · intro p hp hauthor
    constructor
    · unfold updatePost
      rw [hp]
      simp [hauthor]
    · unfold deletePost
      rw [hp]
      simp [hauthor]

/-- C7 witness: a missing id gives NotFound with the store unchanged, and
another user's post gives Forbidden with the store unchanged. -/
theorem c7_update_delete_auth_witness :
    (updatePost "zzz" {} "u1" 0 egStore = (.error (.notFound "Post not found"), egStore) ∧
      deletePost "zzz" "u1" egStore = (.error (.notFound "Post not found"), egStore)) ∧
    (updatePost "p1" {} "u2" 0 egStore
        = (.error (.forbidden "You can only edit your own posts"), egStore) ∧
      deletePost "p1" "u2" egStore
        = (.error (.forbidden "You can only delete your own posts"), egStore)) :=
  ⟨(c7_update_delete_auth "zzz" "u1" {} 0 egStore).1 (by decide),
   (c7_update_delete_auth "p1" "u2" {} 0 egStore).2 postPub (by decide) (by decide)⟩

/-! ## Post interactions (posts-interactions.service.ts) -/

structure LikeData where
  isLiked : Bool
  likesCount : Nat
deriving DecidableEq, Repr

/-- The `findFirst({ where: { id, published: true } })` guard shared by
toggleLike / getComments / createComment. -/
def findPublishedPost (s : Store) (postId : String) : Option Post :=
  s.posts.find? (fun p => p.id == postId && p.published)

/-- The `findUnique` on the (postId, userId) compound key. -/
def findLikePair (s : Store) (postId userId : String) : Option Like :=
  s.likes.find? (fun l => l.postId == postId && l.userId == userId)

/-- toggleLike: NotFound unless the post exists and is published; then the
Like row for the pair is hard-deleted if present (isLiked = false) or
created if absent (isLiked = true); the reported likesCount is a COUNT
over the post's likes after the mutation. -/
def toggleLike (postId userId : String) (s : Store) :
    Except AppError LikeData × Store :=
  match findPublishedPost s postId with
  | none => (.error (.notFound "Post not found"), s)
  | some _post =>
    match findLikePair s postId userId with
    | some existingLike =>
      let newLikes := s.likes.filter (fun l => !(l.id == existingLike.id))
      (.ok { isLiked := false,
             likesCount := newLikes.countP (fun l => l.postId == postId) },
        { s with likes := newLikes })
    | none =>
      let newLike : Like := { id := s.nextLikeId, postId := postId, userId := userId }
      let newLikes := s.likes ++ [newLike]
      (.ok { isLiked := true,
             likesCount := newLikes.countP (fun l => l.postId == postId) },
        { s with likes := newLikes, nextLikeId := s.nextLikeId + 1 })

/-- createComment: NotFound unless the post exists and is published;
BadRequest when the post disables comments; otherwise the comment row is
inserted. -/
def createComment (postId : String) (content : String) (userId : String) (now : Nat)
    (s : Store) : Except AppError Comment × Store :=
  match findPublishedPost s postId with
  | none => (.error (.notFound "Post not found"), s)
  | some post =>
    if !post.allowComments then
      (.error (.badRequest "Comments are disabled for this post"), s)
    else
      let c : Comment :=
        { id := s.nextCommentId
          content := content
          postId := postId
          authorId := userId
          createdAt := now }
      (.ok c, { s with comments := s.comments ++ [c],
                       nextCommentId := s.nextCommentId + 1 })

/-! ### Comment creation guards (C8) -/

/-- C8: createComment fails with NotFound when no published post has the
id, fails with BadRequest when the post disables comments, succeeds
exactly when a published, comment-enabled post exists; failures leave the
store unchanged. -/
theorem c8_createComment_guards (postId content userId : String) (now : Nat) (s : Store) :
    (findPublishedPost s postId = none →
      createComment postId content userId now s
        = (.error (.notFound "Post not found"), s)) ∧
    (∀ post, findPublishedPost s postId = some post → post.allowComments = false →
      createComment postId content userId now s
        = (.error (.badRequest "Comments are disabled for this post"), s)) ∧
    (∀ post, findPublishedPost s postId = some post → post.allowComments = true →
      ∃ c, createComment postId content userId now s
          = (.ok c, { s with comments := s.comments ++ [c],
                             nextCommentId := s.nextCommentId + 1 }) ∧
        c.postId = postId ∧ c.authorId = userId ∧ c.content = content) ∧
    (∀ c s', createComment postId content userId now s = (.ok c, s') →
      ∃ post, post ∈ s.posts ∧ post.id = postId ∧ post.published = true ∧
        post.allowComments = true) := by
  refine ⟨?_, ?_, ?_, ?_⟩
  · intro h
    unfold createComment
    rw [h]
  · intro post hp hc
    unfold createComment
    rw [hp]
    simp [hc]
  · intro post hp hc
    unfold createComment
    rw [hp]
    simp only [hc, Bool.not_true, Bool.false_eq_true, if_false]
    exact ⟨_, rfl, rfl, rfl, rfl⟩
  · intro c s' hok
    unfold createComment at hok
    rcases hp : findPublishedPost s postId with _ | post
    · rw [hp] at hok
      cases hok
    · rw [hp] at hok
      have hmem := List.mem_of_find?_eq_some hp
      have hpred := List.find?_some hp
      simp only [Bool.and_eq_true, beq_iff_eq] at hpred
      by_cases hc : post.allowComments = true
      · exact ⟨post, hmem, hpred.1, hpred.2, hc⟩
      · rw [Bool.not_eq_true] at hc
        simp [hc] at hok

def postLocked : Post :=
  { id := "p3", title := "Locked", content := "no comments", slug := "locked",
    tags := [], published := true, publishedAt := some 150,
    createdAt := 15, updatedAt := 15, featuredImage := none,
    allowComments := false, authorId := "u1" }

def egStoreLocked : Store :=
  { users := ["u1", "u2"], posts := [postPub, postDraft, postLocked], likes := [],
    comments := [], preferences := [], nextLikeId := 0, nextCommentId := 0 }

/-- C8 witness: commenting on the draft post gives NotFound and commenting
on the comment-disabled post gives BadRequest, both leaving the store
unchanged. -/
theorem c8_createComment_guards_witness :
    createComment "p2" "hi" "u2" 7 egStoreLocked
      = (.error (.notFound "Post not found"), egStoreLocked) ∧
    createComment "p3" "hi" "u2" 7 egStoreLocked
      = (.error (.badRequest "Comments are disabled for this post"), egStoreLocked) :=
  ⟨(c8_createComment_guards "p2" "hi" "u2" 7 egStoreLocked).1 (by decide),
   (c8_createComment_guards "p3" "hi" "u2" 7 egStoreLocked).2.1 postLocked
     (by decide) (by decide)⟩

/-! ### Like toggling (C9, C10) -/

theorem toggleLike_delete (postId userId : String) (s : Store) (post : Post) (like : Like)
    (hpost : findPublishedPost s postId = some post)
    (hlike : findLikePair s postId userId = some like) :
    toggleLike postId userId s
      = (.ok { isLiked := false
               likesCount := (s.likes.filter (fun l => !(l.id == like.id))).countP
                 (fun l => l.postId == postId) },
         { s with likes := s.likes.filter (fun l => !(l.id == like.id)) }) := by
  unfold toggleLike
  rw [hpost, hlike]

theorem toggleLike_create (postId userId : String) (s : Store) (post : Post)
    (hpost : findPublishedPost s postId = some post)
    (habsent : findLikePair s postId userId = none) :
    toggleLike postId userId s
      = (.ok { isLiked := true
               likesCount := (s.likes ++ [(⟨s.nextLikeId, postId, userId⟩ : Like)]).countP
                 (fun l => l.postId == postId) },
         { s with
           likes := s.likes ++ [(⟨s.nextLikeId, postId, userId⟩ : Like)]
           nextLikeId := s.nextLikeId + 1 }) := by
  unfold toggleLike
  rw [hpost, habsent]

/-- C9: on a published post, toggleLike creates the Like row for the pair
when absent (reporting isLiked = true) and hard-deletes it when present
(reporting isLiked = false); toggling twice from the absent state reports
isLiked = false and restores the like table, hence likesCount, to its
original value. -/
theorem c9_toggleLike_toggle (postId userId : String) (s : Store) (post : Post)
    (hpost : findPublishedPost s postId = some post)
    (hfresh : ∀ l ∈ s.likes, l.id < s.nextLikeId) :
    (∀ like, findLikePair s postId userId = some like →
      (toggleLike postId userId s).2.likes
          = s.likes.filter (fun l => !(l.id == like.id)) ∧
      ∃ d, (toggleLike postId userId s).1 = .ok d ∧ d.isLiked = false) ∧
    (findLikePair s postId userId = none →
      (toggleLike postId userId s).2.likes
          = s.likes ++ [{ id := s.nextLikeId, postId := postId, userId := userId }] ∧
      ∃ d, (toggleLike postId userId s).1 = .ok d ∧ d.isLiked = true) ∧
    (findLikePair s postId userId = none →
      (toggleLike postId userId (toggleLike postId userId s).2).2.likes = s.likes ∧
      ∃ d, (toggleLike postId userId (toggleLike postId userId s).2).1 = .ok d ∧
        d.isLiked = false ∧
        d.likesCount = s.likes.countP (fun l => l.postId == postId)) := by
  refine ⟨?_, ?_, ?_⟩
  · intro like hlike
    unfold toggleLike
    rw [hpost, hlike]
    refine ⟨rfl, _, rfl, ?_⟩
    rfl
  · intro habsent
    unfold toggleLike
    rw [hpost, habsent]
    refine ⟨rfl, _, rfl, ?_⟩
    rfl
  · intro habsent
    have h1 := toggleLike_create postId userId s post hpost habsent
    have hs1 : (toggleLike postId userId s).2
        = { s with
            likes := s.likes ++ [{ id := s.nextLikeId, postId := postId, userId := userId }]
            nextLikeId := s.nextLikeId + 1 } := by
      rw [h1]
    set newLike : Like := { id := s.nextLikeId, postId := postId, userId := userId }
      with hnew
    have hpost1 : findPublishedPost (toggleLike postId userId s).2 postId = some post := by
      rw [hs1]
      exact hpost
    have hpair1 : findLikePair (toggleLike postId userId s).2 postId userId
        = some newLike := by
      rw [hs1]
      unfold findLikePair at habsent ⊢
      simp only [List.find?_append, habsent, Option.none_or]
      simp [hnew]
    have hdel : ((toggleLike postId userId s).2.likes).filter
        (fun l => !(l.id == newLike.id)) = s.likes := by
      rw [hs1]
      simp only [List.filter_append]
      have hkeep : s.likes.filter (fun l => !(l.id == newLike.id)) = s.likes := by
        rw [List.filter_eq_self]
        intro l hl
        have := hfresh l hl
        simp only [hnew, Bool.not_eq_true']
        rw [beq_eq_false_iff_ne]
        omega
      have hdrop : [newLike].filter (fun l => !(l.id == newLike.id)) = [] := by
        simp
      rw [hkeep, hdrop, List.append_nil]
    have h2 := toggleLike_delete postId userId (toggleLike postId userId s).2 post newLike
      hpost1 hpair1
    constructor
    · rw [h2]
      simpa using hdel
    · refine ⟨{ isLiked := false
                likesCount := List.countP (fun l => l.postId == postId)
                  (List.filter (fun l => !(l.id == newLike.id))
                    (toggleLike postId userId s).2.likes) },
        ?_, rfl, ?_⟩
      · rw [h2]
      · simp only
        rw [hdel]

/-- C10: toggleLike fails with NotFound, leaving the store unchanged, when
the post is absent or unpublished; a Like can only ever be created against
a published post. -/
theorem c10_toggleLike_requires_published (postId userId : String) (s : Store) :
    (findPublishedPost s postId = none →
      toggleLike postId userId s = (.error (.notFound "Post not found"), s)) ∧
    ((∀ p ∈ s.posts, p.id = postId → p.published = false) →
      toggleLike postId userId s = (.error (.notFound "Post not found"), s)) ∧
    (∀ d s', toggleLike postId userId s = (.ok d, s') →
      ∃ p, p ∈ s.posts ∧ p.id = postId ∧ p.published = true) := by
  have hnone : (∀ p ∈ s.posts, p.id = postId → p.published = false) →
      findPublishedPost s postId = none := by
    intro h
    unfold findPublishedPost
    rw [List.find?_eq_none]
    intro p hp
    simp only [Bool.and_eq_true, beq_iff_eq, not_and]
    intro hid
    rw [h p hp hid]
    intro hfalse
    cases hfalse
  refine ⟨?_, ?_, ?_⟩
  · intro h
    unfold toggleLike
    rw [h]
  · intro h
    unfold toggleLike
    rw [hnone h]
  · intro d s' hok
    unfold toggleLike at hok
    rcases hp : findPublishedPost s postId with _ | post
    · rw [hp] at hok
      cases hok
    · have hmem := List.mem_of_find?_eq_some hp
      have hpred := List.find?_some hp
      simp only [Bool.and_eq_true, beq_iff_eq] at hpred
      exact ⟨post, hmem, hpred.1, hpred.2⟩

/-- C9 witness: toggling twice on the published post from a user with no
existing like reports isLiked = false and leaves the like table unchanged. -/
theorem c9_toggleLike_toggle_witness :
    (toggleLike "p1" "u2" (toggleLike "p1" "u2" egStore).2).2.likes = egStore.likes ∧
    ∃ d, (toggleLike "p1" "u2" (toggleLike "p1" "u2" egStore).2).1 = .ok d ∧
      d.isLiked = false ∧
      d.likesCount = egStore.likes.countP (fun l => l.postId == "p1") :=
  (c9_toggleLike_toggle "p1" "u2" egStore postPub (by decide) (by decide)).2.2 (by decide)

/-- C10 witness: toggling a like on the draft post fails with NotFound and
leaves the store unchanged. -/
theorem c10_toggleLike_requires_published_witness :
    toggleLike "p2" "u2" egStore = (.error (.notFound "Post not found"), egStore) :=
  (c10_toggleLike_requires_published "p2" "u2" egStore).1 (by decide)

/-- C6 (amended) witness: the character class guarantee applied to the
first character of the slug of "Hello World". -/
theorem c6_generateSlug_amended_witness :
    (('h' : Char).isLower || ('h' : Char).isDigit || ('h' : Char) == '-') = true :=
  (c6_generateSlug_amended "Hello World").1 'h' (by decide)

end Pentateuch
